import Mathlib

/-!
Verification development for the `si` unit-expression library (Go).

The embedding translates the AST pipeline of the repository:
`unit.go` (dimension algebra and `Unit` arithmetic), the tokenizer
(`NewTokenizer` / `tokenizeFully`), `context.go` (`StandardContext.Resolve`),
`ast.go` (AST node evaluation), the formatter
(`DefaultFormatter.Format`, `dimensionToAST`, `FormatUnit`,
`FormatUnitWithOptions`) and the entry points of `si.go`
(`ParseUnit`, `Parse`).

Modelling conventions:
* Go `float64` values are modelled exactly as unnormalized integer
  fractions (`GoFloat`), so every arithmetic step of the code is mirrored
  by an exact operation that the kernel can evaluate.  IEEE rounding is
  not modelled; all scalar constants of the source are taken at their
  mathematical value.
* Go strings are treated as their character sequences (`String.data`).
  Every prefix/suffix/slice operation of the source cuts at an UTF-8
  character boundary, where byte-level and character-level operations
  agree; the one place where raw byte counts matter (sorting prefixes by
  `len`) uses `String.utf8ByteSize`.
* Go maps are modelled as association lists; every map used by the code
  has pairwise distinct keys, so lookup order is irrelevant.
* Functions whose Go recursion is not structural carry an explicit fuel
  argument.  Each source loop/recursion consumes at least one character
  (or strictly decreases the exponent), so the fuel supplied at every
  call site is sufficient and the out-of-fuel branch is unreachable.
-/

namespace SI

/-- Exact model of a Go `float64` value: an unnormalized fraction of
integers.  `mul`/`div` mirror `*` and `/` on scalars. -/
structure GoFloat where
  num : Int
  den : Int
  deriving DecidableEq, Repr

/-- Scalar multiplication of `float64` values. -/
def GoFloat.mul (a b : GoFloat) : GoFloat := ⟨a.num * b.num, a.den * b.den⟩

/-- Scalar division of `float64` values. -/
def GoFloat.div (a b : GoFloat) : GoFloat := ⟨a.num * b.den, a.den * b.num⟩

/-- The `float64` literal 1. -/
def GoFloat.one : GoFloat := ⟨1, 1⟩

/-- A whole-number `float64` literal. -/
def gf (n : Int) : GoFloat := ⟨n, 1⟩

/-- Value equality of `float64` scalars (`==` on Go floats): the two
fractions denote the same rational. -/
def GoFloat.eqv (a b : GoFloat) : Bool := a.num * b.den == b.num * a.den

/-- The rational number denoted by a modelled scalar. -/
def GoFloat.toRat (a : GoFloat) : ℚ := (a.num : ℚ) / (a.den : ℚ)

/-- `Dimension` (unit.go): the exponents of the 7 SI base units.  The Go
array indices 0..6 are the fields `l m t i th n j` below, in the source's
order [Length, Mass, Time, Current, Temperature, Substance, Luminosity]. -/
structure Dimension where
  l : Int
  m : Int
  t : Int
  i : Int
  th : Int
  n : Int
  j : Int
  deriving DecidableEq, BEq, Repr

/-- The all-zero (dimensionless) vector, Go's `Dimension{}`. -/
def dimZero : Dimension := ⟨0, 0, 0, 0, 0, 0, 0⟩

/-- `Unit` (unit.go): a scalar magnitude together with its dimension. -/
structure Unit where
  Value : GoFloat
  Dimension : Dimension
  deriving DecidableEq, Repr

/-- `Scalar` (unit.go): a dimensionless unit. -/
def Scalar (value : GoFloat) : Unit := ⟨value, dimZero⟩

/-- `Unit.Mul` (unit.go): dimensions are added element-wise (the source's
`for i := range dim` loop over the fixed 7 entries, unrolled) and the
values are multiplied. -/
def Unit.Mul (u v : Unit) : Unit :=
  ⟨u.Value.mul v.Value,
   ⟨u.Dimension.l + v.Dimension.l, u.Dimension.m + v.Dimension.m,
    u.Dimension.t + v.Dimension.t, u.Dimension.i + v.Dimension.i,
    u.Dimension.th + v.Dimension.th, u.Dimension.n + v.Dimension.n,
    u.Dimension.j + v.Dimension.j⟩⟩

/-- `Unit.Div` (unit.go): dimensions subtracted element-wise, values
divided. -/
def Unit.Div (u v : Unit) : Unit :=
  ⟨u.Value.div v.Value,
   ⟨u.Dimension.l - v.Dimension.l, u.Dimension.m - v.Dimension.m,
    u.Dimension.t - v.Dimension.t, u.Dimension.i - v.Dimension.i,
    u.Dimension.th - v.Dimension.th, u.Dimension.n - v.Dimension.n,
    u.Dimension.j - v.Dimension.j⟩⟩

/-- Helper `pow` of unit.go (`x^n` by repeated squaring), positive
exponents.  The Go function recurses on a strictly decreasing `n`
(`n/2 ≤ n-1` and `n-1 < n`), which is not structural; `fuel` bounds the
recursion depth, and any `fuel ≥ n` computes the Go value
(`powFuel_irrel` below). -/
def powFuel (x : GoFloat) : Nat → Nat → GoFloat
  | _, 0 => GoFloat.one
  | 0, _ + 1 => GoFloat.one
  | f + 1, n + 1 =>
    if (n + 1) % 2 = 0 then
      let half := powFuel x f ((n + 1) / 2)
      half.mul half
    else x.mul (powFuel x f n)

/-- `pow` of unit.go for an arbitrary integer exponent: `pow(x,0)=1`,
`pow(x,n) = 1/pow(x,-n)` for negative `n`, repeated squaring otherwise. -/
def pow (x : GoFloat) (n : Int) : GoFloat :=
  if n = 0 then GoFloat.one
  else if n < 0 then GoFloat.one.div (powFuel x (-n).toNat (-n).toNat)
  else powFuel x n.toNat n.toNat

/-- `Unit.Pow` (unit.go): all dimension exponents multiplied by the
power, value raised by `pow`. -/
def Unit.Pow (u : Unit) (exp : Int) : Unit :=
  ⟨pow u.Value exp,
   ⟨u.Dimension.l * exp, u.Dimension.m * exp, u.Dimension.t * exp,
    u.Dimension.i * exp, u.Dimension.th * exp, u.Dimension.n * exp,
    u.Dimension.j * exp⟩⟩

/-- `TokenKind` (token definitions file). -/
inductive TokenKind where
  | Invalid
  | EOF
  | Identifier
  | Number
  | Multiply
  | Divide
  | Power
  | LParen
  | RParen
  deriving DecidableEq, Repr

/-- `Token`: kind, lexeme and source position.  Go stores a
`scanner.Position`; only its `Offset` is ever set, modelled as a `Nat`
(character offset into the normalized input). -/
structure Token where
  Kind : TokenKind
  Value : String
  Pos : Nat
  deriving DecidableEq, Repr

/-- The token returned by `Next`/`Peek` past the end of the stream:
`Token{Kind: EOF, Pos: scanner.Position{}}`. -/
def eofToken : Token := ⟨TokenKind.EOF, "", 0⟩

/-- `isSpace` of the tokenizer file. -/
def isSpace (c : Char) : Bool :=
  c = ' ' ∨ c = '\t' ∨ c = '\n' ∨ c = '\r'

/-- `isSpecialIdentifierStart` of the tokenizer file. -/
def isSpecialIdentifierStart (c : Char) : Bool :=
  c = '%' ∨ c = '°' ∨ c = 'µ' ∨ c = 'μ' ∨ c = 'Ω'

/-- Go `unicode.IsLetter`, restricted to the code points the library's
symbol tables and tests exercise: ASCII letters plus the letter glyphs
listed in `isSpecialIdentifierStart`. -/
def goIsLetter (c : Char) : Bool :=
  c.isAlpha ∨ c = 'µ' ∨ c = 'μ' ∨ c = 'Ω'

/-- Go `unicode.IsDigit` on the inputs in scope (ASCII digits). -/
def goIsDigit (c : Char) : Bool := c.isDigit

/-- `isIdentifierChar` of the tokenizer file. -/
def isIdentifierChar (c : Char) : Bool :=
  goIsLetter c ∨ goIsDigit c ∨ isSpecialIdentifierStart c

/-- The operator characters that `normalizeInput` surrounds with
spaces. -/
def isOpChar (c : Char) : Bool :=
  c = '(' ∨ c = ')' ∨ c = '/' ∨ c = '*' ∨ c = '·' ∨ c = '^'

/-- Go `unicode.IsSpace` on the code points in scope (used by
`strings.TrimSpace` and `strings.Fields`). -/
def goIsUnicodeSpace (c : Char) : Bool :=
  c = ' ' ∨ c = '\t' ∨ c = '\n' ∨ c = '\x0b' ∨ c = '\x0c' ∨ c = '\r'

/-- First normalization step: `strings.Replace` of each operator
character `c` by `" c "`. -/
def addSpacesAroundOps (cs : List Char) : List Char :=
  (cs.map fun c => if isOpChar c then [' ', c, ' '] else [c]).flatten

/-- Second normalization step.  The Go loop replaces `"  "` by `" "`
until no double space remains; its fixpoint collapses every run of
spaces to a single space, which this structural recursion computes
directly. -/
def squeezeSpaces : List Char → List Char
  | [] => []
  | [c] => [c]
  | c1 :: c2 :: rest =>
    if c1 = ' ' ∧ c2 = ' ' then squeezeSpaces (c2 :: rest)
    else c1 :: squeezeSpaces (c2 :: rest)

/-- Go `strings.TrimSpace`. -/
def goTrimSpace (cs : List Char) : List Char :=
  ((cs.dropWhile goIsUnicodeSpace).reverse.dropWhile goIsUnicodeSpace).reverse

/-- `normalizeInput` of the tokenizer file: pad operators with spaces,
collapse space runs, trim. -/
def normalizeInput (cs : List Char) : List Char :=
  goTrimSpace (squeezeSpaces (addSpacesAroundOps cs))

/-- Digits of a decimal literal folded to a number. -/
def digitsToNat (ds : List Char) : Nat :=
  ds.foldl (fun acc c => 10 * acc + (c.toNat - '0'.toNat)) 0

/-- Lexical error of `tokenizeFully`: either a malformed numeric literal
or an unrecognized character, with its position. -/
inductive LexError where
  | invalidNumber (lit : String) (pos : Nat)
  | invalidCharacter (c : Char) (pos : Nat)
  | outOfFuel
  deriving DecidableEq, Repr

/-- Position of a lexical error. -/
def LexError.pos : LexError → Nat
  | .invalidNumber _ p => p
  | .invalidCharacter _ p => p
  | .outOfFuel => 0

/-- Go `strconv.ParseFloat`, restricted to the decimal forms
`[+-]digits[.digits][ (e|E) [+-] digits ]` (also `.digits`); the `Inf`,
`NaN` and hexadecimal inputs accepted by Go are outside the unit
grammar and are not modelled.  Returns the exact value. -/
def parseFloat? (s : String) : Option GoFloat :=
  let cs := s.data
  let (neg, cs) :=
    match cs with
    | '-' :: rest => (true, rest)
    | '+' :: rest => (false, rest)
    | _ => (false, cs)
  let intPart := cs.takeWhile Char.isDigit
  let cs := cs.dropWhile Char.isDigit
  let (fracPart, cs) :=
    match cs with
    | '.' :: rest => (rest.takeWhile Char.isDigit, rest.dropWhile Char.isDigit)
    | _ => ([], cs)
  if intPart = [] ∧ fracPart = [] then none
  else
    let mant : Int := Int.ofNat (digitsToNat (intPart ++ fracPart))
    let mant : Int := if neg then -mant else mant
    let base : GoFloat := ⟨mant, Int.ofNat (10 ^ fracPart.length)⟩
    match cs with
    | [] => some base
    | e :: rest =>
      if e = 'e' ∨ e = 'E' then
        let (eneg, rest) :=
          match rest with
          | '-' :: r => (true, r)
          | '+' :: r => (false, r)
          | _ => (false, rest)
        let eDigits := rest.takeWhile Char.isDigit
        let rest := rest.dropWhile Char.isDigit
        if eDigits = [] ∨ rest ≠ [] then none
        else
          let k := digitsToNat eDigits
          some (if eneg then ⟨base.num, base.den * Int.ofNat (10 ^ k)⟩
                else ⟨base.num * Int.ofNat (10 ^ k), base.den⟩)
      else none

/-- Main loop of `tokenizeFully` over the normalized input.  Each Go
loop iteration consumes at least one character, so `fuel` equal to the
input length is sufficient; `pos` is the current offset. -/
def tokLoop : Nat → List Char → Nat → List Token × Option LexError
  | _, [], pos => ([⟨.EOF, "", pos⟩], none)
  | 0, _ :: _, _ => ([], some .outOfFuel)
  | f + 1, c :: rest, pos =>
    if isSpace c then tokLoop f rest (pos + 1)
    else if c = '(' then
      let (ts, e) := tokLoop f rest (pos + 1); (⟨.LParen, "(", pos⟩ :: ts, e)
    else if c = ')' then
      let (ts, e) := tokLoop f rest (pos + 1); (⟨.RParen, ")", pos⟩ :: ts, e)
    else if c = '*' ∨ c = '·' then
      let (ts, e) := tokLoop f rest (pos + 1); (⟨.Multiply, String.mk [c], pos⟩ :: ts, e)
    else if c = '/' then
      let (ts, e) := tokLoop f rest (pos + 1); (⟨.Divide, "/", pos⟩ :: ts, e)
    else if c = '^' then
      let (ts, e) := tokLoop f rest (pos + 1); (⟨.Power, "^", pos⟩ :: ts, e)
    else if goIsDigit c then
      let ds := (c :: rest).takeWhile (fun d => goIsDigit d ∨ d = '.')
      let rem := (c :: rest).dropWhile (fun d => goIsDigit d ∨ d = '.')
      let numStr := String.mk ds
      match parseFloat? numStr with
      | none => ([], some (.invalidNumber numStr pos))
      | some _ =>
        let (ts, e) := tokLoop f rem (pos + ds.length)
        (⟨.Number, numStr, pos⟩ :: ts, e)
    else if goIsLetter c ∨ isSpecialIdentifierStart c then
      let ds := (c :: rest).takeWhile isIdentifierChar
      let rem := (c :: rest).dropWhile isIdentifierChar
      let (ts, e) := tokLoop f rem (pos + ds.length)
      (⟨.Identifier, String.mk ds, pos⟩ :: ts, e)
    else ([], some (.invalidCharacter c pos))

/-- `tokenizeFully`: normalize, then tokenize the whole input.  On
success the token list ends with an `EOF` token; on failure it holds
exactly the tokens produced before the offending position, and no `EOF`
token. -/
def tokenizeFully (input : String) : List Token × Option LexError :=
  let cs := normalizeInput input.data
  tokLoop cs.length cs 0

/-- `Tokenizer`: the input, the pre-computed token list, and a cursor. -/
structure Tokenizer where
  input : String
  tokens : List Token
  position : Nat
  deriving DecidableEq, Repr

/-- `NewTokenizer`: tokenizes the whole input, discarding the error
(`tokens, _ := tokenizeFully(input)`). -/
def NewTokenizer (input : String) : Tokenizer :=
  ⟨input, (tokenizeFully input).1, 0⟩

/-- `Tokenizer.Next`: return the next token and advance, or the EOF
token (without advancing) past the end. -/
def Tokenizer.Next (t : Tokenizer) : Token × Tokenizer :=
  if h : t.position < t.tokens.length then
    (t.tokens.get ⟨t.position, h⟩, { t with position := t.position + 1 })
  else (eofToken, t)

/-- `Tokenizer.Peek`: the next token without advancing. -/
def Tokenizer.Peek (t : Tokenizer) : Token :=
  if h : t.position < t.tokens.length then t.tokens.get ⟨t.position, h⟩
  else eofToken

/-- Errors of the resolution/evaluation/parsing pipeline.  Every Go
error is a distinct `fmt.Errorf` site; the constructors record the site
and its arguments instead of the rendered message. -/
inductive SIError where
  | unrecognizedUnit (symbol : String)
  | errEvalLeft (e : SIError)
  | errEvalRight (e : SIError)
  | errEvalBase (e : SIError)
  | unsupportedBinaryOp (op : TokenKind)
  | unexpectedToken (t : Token)
  | nonIntegerExponent (t : Token)
  | missingCloseParen (t : Token)
  | trailingTokens (t : Token)
  | parseOutOfFuel
  | invalidNumericValue (s : String)
  | invalidUnitExpression (s : String)
  deriving DecidableEq, Repr

/-- The dimension constants of si.go (`Length`, `Mass`, `TimeDim`, ...). -/
def Length : Dimension := ⟨1, 0, 0, 0, 0, 0, 0⟩

/-- `Mass` (si.go). -/
def Mass : Dimension := ⟨0, 1, 0, 0, 0, 0, 0⟩

/-- `TimeDim` (si.go). -/
def TimeDim : Dimension := ⟨0, 0, 1, 0, 0, 0, 0⟩

/-- `Current` (si.go). -/
def Current : Dimension := ⟨0, 0, 0, 1, 0, 0, 0⟩

/-- `Temperature` (si.go). -/
def Temperature : Dimension := ⟨0, 0, 0, 0, 1, 0, 0⟩

/-- `Substance` (si.go). -/
def Substance : Dimension := ⟨0, 0, 0, 0, 0, 1, 0⟩

/-- `Luminosity` (si.go). -/
def Luminosity : Dimension := ⟨0, 0, 0, 0, 0, 0, 1⟩

/-- `Dimensionless` (si.go). -/
def Dimensionless : Dimension := dimZero

/-- `Meter` (si.go). -/
def Meter : Unit := ⟨gf 1, Length⟩

/-- `Kilogram` (si.go). -/
def Kilogram : Unit := ⟨gf 1, Mass⟩

/-- `Second` (si.go). -/
def Second : Unit := ⟨gf 1, TimeDim⟩

/-- `Ampere` (si.go). -/
def Ampere : Unit := ⟨gf 1, Current⟩

/-- `Kelvin` (si.go). -/
def Kelvin : Unit := ⟨gf 1, Temperature⟩

/-- `Mole` (si.go). -/
def Mole : Unit := ⟨gf 1, Substance⟩

/-- `Candela` (si.go). -/
def Candela : Unit := ⟨gf 1, Luminosity⟩

/-- `One` (si.go): dimensionless quantity with value 1. -/
def One : Unit := ⟨gf 1, Dimensionless⟩

/-- `Newton` = kg·m/s² (si.go; context.go computes the same value from
its base-unit map entries, which equal `Kilogram`, `Meter`, `Second`). -/
def Newton : Unit := (Kilogram.Mul Meter).Div (Second.Pow 2)

/-- `Joule` = N·m. -/
def Joule : Unit := Newton.Mul Meter

/-- `Watt` = J/s. -/
def Watt : Unit := Joule.Div Second

/-- `Pascal` = N/m². -/
def Pascal : Unit := Newton.Div (Meter.Pow 2)

/-- `Hertz` = 1/s (written as a literal in the source). -/
def Hertz : Unit := ⟨gf 1, ⟨0, 0, -1, 0, 0, 0, 0⟩⟩

/-- `Coulomb` = A·s. -/
def Coulomb : Unit := Ampere.Mul Second

/-- `Volt` = W/A. -/
def Volt : Unit := Watt.Div Ampere

/-- `registerBaseUnits` (context.go): the 7 SI base units. -/
def baseUnits : List (String × Unit) :=
  [("m", ⟨gf 1, ⟨1, 0, 0, 0, 0, 0, 0⟩⟩),
   ("kg", ⟨gf 1, ⟨0, 1, 0, 0, 0, 0, 0⟩⟩),
   ("s", ⟨gf 1, ⟨0, 0, 1, 0, 0, 0, 0⟩⟩),
   ("A", ⟨gf 1, ⟨0, 0, 0, 1, 0, 0, 0⟩⟩),
   ("K", ⟨gf 1, ⟨0, 0, 0, 0, 1, 0, 0⟩⟩),
   ("mol", ⟨gf 1, ⟨0, 0, 0, 0, 0, 1, 0⟩⟩),
   ("cd", ⟨gf 1, ⟨0, 0, 0, 0, 0, 0, 1⟩⟩)]

/-- `registerDerivedUnits` (context.go).  The derived entries are
computed from the base-unit entries exactly as the source does; the
base-unit map entries coincide with `Kilogram`, `Meter`, `Second`,
`Ampere`, so the same constants are reused here. -/
def derivedUnits : List (String × Unit) :=
  [("N", Newton),
   ("J", Joule),
   ("W", Watt),
   ("Pa", Pascal),
   ("Hz", ⟨gf 1, ⟨0, 0, -1, 0, 0, 0, 0⟩⟩),
   ("C", Coulomb),
   ("V", Volt),
   ("h", ⟨gf 3600, ⟨0, 0, 1, 0, 0, 0, 0⟩⟩),
   ("min", ⟨gf 60, ⟨0, 0, 1, 0, 0, 0, 0⟩⟩),
   ("d", ⟨gf 86400, ⟨0, 0, 1, 0, 0, 0, 0⟩⟩),
   ("B", ⟨gf 1, dimZero⟩),
   ("iB", ⟨gf 1, dimZero⟩)]

/-- `registerPrefixes` (context.go): SI prefixes and binary prefixes.
`1e-3` etc. are taken at their mathematical value `1/10^3`; `math.Pow(2, k)`
is exact. -/
def prefixes : List (String × GoFloat) :=
  [("Y", gf (10 ^ 24)), ("Z", gf (10 ^ 21)), ("E", gf (10 ^ 18)),
   ("P", gf (10 ^ 15)), ("T", gf (10 ^ 12)), ("G", gf (10 ^ 9)),
   ("M", gf (10 ^ 6)), ("k", gf (10 ^ 3)), ("h", gf (10 ^ 2)),
   ("da", gf 10), ("", gf 1),
   ("d", ⟨1, 10⟩), ("c", ⟨1, 10 ^ 2⟩), ("m", ⟨1, 10 ^ 3⟩),
   ("u", ⟨1, 10 ^ 6⟩), ("μ", ⟨1, 10 ^ 6⟩), ("µ", ⟨1, 10 ^ 6⟩),
   ("n", ⟨1, 10 ^ 9⟩), ("p", ⟨1, 10 ^ 12⟩), ("f", ⟨1, 10 ^ 15⟩),
   ("a", ⟨1, 10 ^ 18⟩), ("z", ⟨1, 10 ^ 21⟩), ("y", ⟨1, 10 ^ 24⟩),
   ("Ki", gf (2 ^ 10)), ("Mi", gf (2 ^ 20)), ("Gi", gf (2 ^ 30)),
   ("Ti", gf (2 ^ 40)), ("Pi", gf (2 ^ 50)), ("Ei", gf (2 ^ 60))]

/-- Go map access `ctx.prefixes[p]` (zero value `0.0` when absent; every
access in the source hits a present key). -/
def prefixVal (p : String) : GoFloat := (List.lookup p prefixes).getD ⟨0, 1⟩

/-- UTF-8 byte length, Go's `len` on a string. -/
def byteLen (s : String) : Nat := s.utf8ByteSize

/-- `sortPrefixes` (context.go) sorts the map's keys by byte length,
longest first; the order of equal-length keys is whatever Go's
(unstable) sort produces from the randomized map iteration.  This list
fixes one such order.  Distinct prefixes of equal byte length can never
both be string prefixes of the same symbol, so `Resolve` does not
depend on the choice. -/
def sortedPrefixes : List String :=
  ["da", "μ", "µ", "Ki", "Mi", "Gi", "Ti", "Pi", "Ei",
   "Y", "Z", "E", "P", "T", "G", "M", "k", "h", "d", "c", "m", "u",
   "n", "p", "f", "a", "z", "y", ""]

/-- Go `strings.HasPrefix`.  Byte-level and character-level prefix tests
agree on valid UTF-8 strings. -/
def goHasPrefix (s p : String) : Bool := p.data.isPrefixOf s.data

/-- Go `strings.HasSuffix`. -/
def goHasSuffix (s p : String) : Bool := p.data.isSuffixOf s.data

/-- Go slice `symbol[len(p):]` where `p` is known to be a prefix of
`symbol`: the cut is at a character boundary. -/
def dropPfx (s p : String) : String := String.mk (s.data.drop p.data.length)

/-- The binary-prefix loop of `Resolve` (context.go): for symbols ending
in `"iB"`, find `p ∈ {K,M,G,T,P,E}` with `symbol == p + "iB"` and
return the dimensionless scale `prefixes[p+"i"]`. -/
def binaryIBScan (symbol : String) : List String → Option Unit
  | [] => none
  | p :: rest =>
    if goHasPrefix symbol p ∧ symbol = p ++ "iB" then
      some ⟨prefixVal (p ++ "i"), dimZero⟩
    else binaryIBScan symbol rest

/-- The prefix-stripping loop of `Resolve` (context.go): walk the sorted
prefixes, skip the empty prefix, and return the first prefixed base or
derived unit, its value scaled by the prefix factor. -/
def prefixScan : List String → String → Option Unit
  | [], _ => none
  | p :: rest, symbol =>
    if p = "" then prefixScan rest symbol
    else if goHasPrefix symbol p then
      match List.lookup (dropPfx symbol p) baseUnits with
      | some u => some { u with Value := u.Value.mul (prefixVal p) }
      | none =>
        match List.lookup (dropPfx symbol p) derivedUnits with
        | some u => some { u with Value := u.Value.mul (prefixVal p) }
        | none => prefixScan rest symbol
    else prefixScan rest symbol

/-- `StandardContext.Resolve` (context.go): dimensionless and gram
special cases, exact base/derived lookup, binary byte-multiples, then
greedy longest-prefix stripping. -/
def Resolve (symbol : String) : Except SIError Unit :=
  if symbol = "1" ∨ symbol = "" then .ok ⟨gf 1, dimZero⟩
  else if symbol = "g" then .ok ⟨⟨1, 1000⟩, ⟨0, 1, 0, 0, 0, 0, 0⟩⟩
  else
    match List.lookup symbol baseUnits with
    | some u => .ok u
    | none =>
      match List.lookup symbol derivedUnits with
      | some u => .ok u
      | none =>
        match (if goHasSuffix symbol "iB" then
                 binaryIBScan symbol ["K", "M", "G", "T", "P", "E"]
               else none) with
        | some u => .ok u
        | none =>
          match prefixScan sortedPrefixes symbol with
          | some u => .ok u
          | none => .error (.unrecognizedUnit symbol)

/-- The AST (ast.go): a closed set of node variants.  The Go interface
`Node` with its implementing struct types becomes one inductive; each
constructor keeps its source type name. -/
inductive Node where
  | IdentNode (Symbol : String)
  | NumberNode (Value : GoFloat)
  | BinaryNode (Op : TokenKind) (Left Right : Node)
  | PowerNode (Base : Node) (Exp : Int)
  | GroupNode (Inner : Node)
  deriving DecidableEq, Repr

/-- `Node.Eval` (ast.go): identifiers resolve through the context
(modelled as the resolution function itself, the only method of the
`Context` interface); numbers are dimensionless; binary nodes wrap
left/right errors and combine with `Mul`/`Div`; power nodes wrap base
errors and apply `Pow`; group nodes evaluate the inner expression. -/
def Node.Eval (ctx : String → Except SIError Unit) : Node → Except SIError Unit
  | .IdentNode s => ctx s
  | .NumberNode v => .ok (Scalar v)
  | .BinaryNode op l r =>
    match l.Eval ctx with
    | .error e => .error (.errEvalLeft e)
    | .ok lu =>
      match r.Eval ctx with
      | .error e => .error (.errEvalRight e)
      | .ok ru =>
        match op with
        | .Multiply => .ok (lu.Mul ru)
        | .Divide => .ok (lu.Div ru)
        | _ => .error (.unsupportedBinaryOp op)
  | .PowerNode b e =>
    match b.Eval ctx with
    | .error err => .error (.errEvalBase err)
    | .ok bu => .ok (bu.Pow e)
  | .GroupNode inner => inner.Eval ctx

/-- An integer literal (the token's lexeme is all digits), for `^`
exponents. -/
def parseIntLit? (s : String) : Option Int :=
  if s.data ≠ [] ∧ s.data.all Char.isDigit then
    some (Int.ofNat (digitsToNat s.data))
  else none

mutual

/-- Modelled from the spec: the recursive-descent parser
(`ParseUnitAST` / `ParseComplexUnit`, named by si.go, the tests and
design/parser.md) is not among the source files.  Spec §4.2 fixes the
grammar `term := power (('*'|'/') power)*` (left-associative),
`power := factor ('^' INTEGER)?` (no chained `^`),
`factor := IDENT | NUMBER | '(' term ')'`, with one-token lookahead,
errors for a trailing operator, a non-integer exponent, mismatched
parentheses and unconsumed tokens.  `fuel` bounds the recursion depth
(any fuel above three times the token count is sufficient). -/
def parseTerm : Nat → List Token → Except SIError (Node × List Token)
  | 0, _ => .error .parseOutOfFuel
  | f + 1, ts =>
    match parsePower f ts with
    | .error e => .error e
    | .ok (l, ts1) => parseTermLoop f l ts1

/-- Modelled from the spec: the `( ('*' | '/') power )*` loop of the
`term` production; on any other lookahead token it stops. -/
def parseTermLoop : Nat → Node → List Token → Except SIError (Node × List Token)
  | 0, _, _ => .error .parseOutOfFuel
  | _ + 1, left, [] => .ok (left, [])
  | f + 1, left, t :: rest =>
    if t.Kind = .Multiply ∨ t.Kind = .Divide then
      match parsePower f rest with
      | .error e => .error e
      | .ok (right, ts2) => parseTermLoop f (.BinaryNode t.Kind left right) ts2
    else .ok (left, t :: rest)

/-- Modelled from the spec: `power := factor ('^' INTEGER)?`; the
exponent must be a bare integer number literal. -/
def parsePower : Nat → List Token → Except SIError (Node × List Token)
  | 0, _ => .error .parseOutOfFuel
  | f + 1, ts =>
    match parseFactor f ts with
    | .error e => .error e
    | .ok (base, ts1) =>
      match ts1 with
      | [] => .ok (base, [])
      | t :: rest =>
        if t.Kind = .Power then
          match rest with
          | [] => .error (.nonIntegerExponent eofToken)
          | t2 :: r2 =>
            if t2.Kind = .Number then
              match parseIntLit? t2.Value with
              | some k => .ok (.PowerNode base k, r2)
              | none => .error (.nonIntegerExponent t2)
            else .error (.nonIntegerExponent t2)
        else .ok (base, t :: rest)

/-- Modelled from the spec: `factor := IDENT | NUMBER | '(' term ')'`. -/
def parseFactor : Nat → List Token → Except SIError (Node × List Token)
  | 0, _ => .error .parseOutOfFuel
  | _ + 1, [] => .error (.unexpectedToken eofToken)
  | f + 1, t :: rest =>
    match t.Kind with
    | .Identifier => .ok (.IdentNode t.Value, rest)
    | .Number =>
      match parseFloat? t.Value with
      | some v => .ok (.NumberNode v, rest)
      | none => .error (.unexpectedToken t)
    | .LParen =>
      match parseTerm f rest with
      | .error e => .error e
      | .ok (inner, ts1) =>
        match ts1 with
        | [] => .error (.missingCloseParen eofToken)
        | t2 :: r2 =>
          if t2.Kind = .RParen then .ok (.GroupNode inner, r2)
          else .error (.missingCloseParen t2)
    | _ => .error (.unexpectedToken t)

end

/-- Modelled from the spec: parse a full token stream; unconsumed
tokens after the complete parse (other than the terminating EOF token)
are an error. -/
def parseTokens (ts : List Token) : Except SIError Node :=
  match parseTerm (3 * ts.length + 3) ts with
  | .error e => .error e
  | .ok (node, rest) =>
    match rest with
    | [] => .ok node
    | t :: _ => if t.Kind = .EOF then .ok node else .error (.trailingTokens t)

/-- Modelled from the spec: `ParseUnitAST` — tokenize (through the
source's `NewTokenizer`, which discards lexical errors) and parse. -/
def ParseUnitAST (input : String) : Except SIError Node :=
  parseTokens (NewTokenizer input).tokens

/-- Modelled from the spec: `EvalAST` walks the AST against a context. -/
def EvalAST (node : Node) (ctx : String → Except SIError Unit) : Except SIError Unit :=
  node.Eval ctx

/-- Modelled from the spec: `ParseComplexUnit` — the preferred entry
point, `Evaluator(Parser(Tokenizer(text)), Context)`. -/
def ParseComplexUnit (input : String) (ctx : String → Except SIError Unit) :
    Except SIError Unit :=
  match ParseUnitAST input with
  | .error e => .error e
  | .ok node => node.Eval ctx

/-- `SymbolicUnits` (si.go): domain-specific symbols. -/
def SymbolicUnits : List (String × Unit) :=
  [("dBm", ⟨⟨1, 1000⟩, ⟨2, 1, -3, 0, 0, 0, 0⟩⟩),
   ("psi", ⟨⟨689476, 100⟩, Pascal.Dimension⟩)]

/-- `parseUnitExprWithAST` (si.go): build the standard context and run
`ParseComplexUnit`; the registered conversion between the two `Unit`
types copies the 7 dimension entries and the value unchanged, so it is
the identity here. -/
def parseUnitExprWithAST (input : String) : Except SIError Unit :=
  ParseComplexUnit input Resolve

/-- `ParseUnit` (si.go): `""`/`"1"` are `One`, symbolic units are
looked up directly, everything else goes through the AST parser. -/
def ParseUnit (input : String) : Except SIError Unit :=
  if input = "" ∨ input = "1" then .ok One
  else
    match List.lookup input SymbolicUnits with
    | some u => .ok u
    | none => parseUnitExprWithAST input

/-- Helper for `strings.Fields`: split on runs of white space; `acc`
holds the current field reversed. -/
def goFieldsAux : List Char → List Char → List String
  | [], acc => if acc = [] then [] else [String.mk acc.reverse]
  | c :: rest, acc =>
    if goIsUnicodeSpace c then
      if acc = [] then goFieldsAux rest []
      else String.mk acc.reverse :: goFieldsAux rest []
    else goFieldsAux rest (c :: acc)

/-- Go `strings.Fields`. -/
def goFields (s : String) : List String := goFieldsAux s.data []

/-- `Parse` (si.go): split fields; a single field must be a bare
number (dimensionless); otherwise the first field is the magnitude and
the remaining fields, joined with no separator, are the unit
expression, whose value is scaled by the magnitude. -/
def Parse (input : String) : Except SIError Unit :=
  match goFields input with
  | [f] =>
    match parseFloat? f with
    | none => .error (.invalidNumericValue f)
    | some v => .ok (Scalar v)
  | [] => .error (.invalidUnitExpression input)
  | f :: rest =>
    match parseFloat? f with
    | none => .error (.invalidNumericValue f)
    | some v =>
      match parseUnitExprWithAST (String.join rest) with
      | .error e => .error e
      | .ok u => .ok { u with Value := u.Value.mul v }

/-- `FormatOptions` (formatter file). -/
structure FormatOptions where
  MultSymbol : String
  DivSymbol : String
  ExponentFmt : String
  UseParens : Bool
  Simplify : Bool
  CollapseSymbols : Bool
  KnownSymbols : List (Dimension × String)
  deriving DecidableEq, Repr

/-- `defaultKnownSymbols` (formatter file): dimension-to-symbol map;
keys are pairwise distinct dimensions, so the Go map order is
irrelevant. -/
def defaultKnownSymbols : List (Dimension × String) :=
  [(Newton.Dimension, "N"), (Joule.Dimension, "J"), (Watt.Dimension, "W"),
   (Pascal.Dimension, "Pa"), (Hertz.Dimension, "Hz"), (Volt.Dimension, "V")]

/-- `DefaultFormatOptions` (formatter file). -/
def DefaultFormatOptions : FormatOptions :=
  ⟨"*", "/", "^%d", true, false, true, defaultKnownSymbols⟩

/-- `DefaultFormatter` (formatter file). -/
structure DefaultFormatter where
  Options : FormatOptions
  deriving DecidableEq, Repr

/-- `NewDefaultFormatter` (formatter file). -/
def NewDefaultFormatter : DefaultFormatter := ⟨DefaultFormatOptions⟩

/-- `isBinaryNode` (formatter file). -/
def isBinaryNode : Node → Bool
  | .BinaryNode .. => true
  | _ => false

/-- `isBinaryDivision` (formatter file); the source only calls it on
binary nodes. -/
def isBinaryDivision : Node → Bool
  | .BinaryNode op _ _ => op = .Divide
  | _ => false

/-- Go `fmt.Sprintf` with a format string containing `%d` verbs and an
integer argument: each `%d` is replaced by the decimal rendering. -/
def sprintfInt (fmtStr : List Char) (k : Int) : String :=
  String.mk (go fmtStr)
where
  go : List Char → List Char
    | [] => []
    | '%' :: 'd' :: rest => (toString k).data ++ go rest
    | c :: rest => c :: go rest

/-- Go `fmt.Sprintf("%g", v)`.  Faithful for integer values (the only
ones any formatted node carries in this development: `%g` prints small
integers without decimal point or exponent); non-integral values are
rendered as an exact fraction here, while Go would print a shortest
decimal form. -/
def goFormatG (v : GoFloat) : String :=
  if v.den ≠ 0 ∧ v.num % v.den = 0 then toString (v.num / v.den)
  else toString v.num ++ "/" ++ toString v.den

/-- `DefaultFormatter.Format` (formatter file).  The source's two error
returns (nil node, unknown dynamic type) are unrepresentable for the
closed `Node` inductive, so the function is total. -/
def DefaultFormatter.Format (fm : DefaultFormatter) : Node → String
  | .IdentNode s => s
  | .NumberNode v => goFormatG v
  | .BinaryNode op l r =>
    let left := fm.Format l
    let right := fm.Format r
    let opStr := if op = .Divide then fm.Options.DivSymbol else fm.Options.MultSymbol
    let left :=
      if fm.Options.UseParens ∧ isBinaryNode l ∧ op = .Divide ∧ ¬ isBinaryDivision l then
        "(" ++ left ++ ")"
      else left
    let right :=
      if fm.Options.UseParens ∧ isBinaryNode r ∧ op = .Divide then "(" ++ right ++ ")"
      else right
    left ++ opStr ++ right
  | .PowerNode b e =>
    let base := fm.Format b
    if e = 1 ∧ fm.Options.Simplify then base
    else
      let base := if fm.Options.UseParens ∧ isBinaryNode b then "(" ++ base ++ ")" else base
      base ++ sprintfInt fm.Options.ExponentFmt.data e
  | .GroupNode inner =>
    let s := fm.Format inner
    if fm.Options.UseParens then "(" ++ s ++ ")" else s

/-- The repeated numerator-entry pattern of `dimensionToAST`: a bare
identifier for exponent 1, else a power node. -/
def mkNumEntry (sym : String) (exp : Int) : Node :=
  if exp ≠ 1 then .PowerNode (.IdentNode sym) exp else .IdentNode sym

/-- The repeated denominator-entry pattern of `dimensionToAST`: a bare
identifier for exponent -1, else a power node with the negated
exponent. -/
def mkDenEntry (sym : String) (exp : Int) : Node :=
  if exp ≠ -1 then .PowerNode (.IdentNode sym) (-exp) else .IdentNode sym

/-- The left-nested multiplication chain of `dimensionToAST`
(`numNode = Binary(Mul, numNode, entry)` in source order). -/
def chainMul (first : Node) (rest : List Node) : Node :=
  rest.foldl (fun acc x => .BinaryNode .Multiply acc x) first

/-- `dimensionToAST` (formatter file): mass then length then the
remaining positive exponents form the numerator, the negative
exponents (index order 2..6, then length, then mass) form the
denominator; empty numerators become the literal 1; numerator and
denominator are division operands.  The Go error return is nil on
every path, so the node is returned directly. -/
def dimensionToAST (dim : Dimension) : Node :=
  let numerator : List Node :=
    (if dim.m > 0 then [mkNumEntry "kg" dim.m] else []) ++
    (if dim.l > 0 then [mkNumEntry "m" dim.l] else []) ++
    (if dim.t > 0 then [mkNumEntry "s" dim.t] else []) ++
    (if dim.i > 0 then [mkNumEntry "A" dim.i] else []) ++
    (if dim.th > 0 then [mkNumEntry "K" dim.th] else []) ++
    (if dim.n > 0 then [mkNumEntry "mol" dim.n] else []) ++
    (if dim.j > 0 then [mkNumEntry "cd" dim.j] else [])
  let denominator : List Node :=
    (if dim.t < 0 then [mkDenEntry "s" dim.t] else []) ++
    (if dim.i < 0 then [mkDenEntry "A" dim.i] else []) ++
    (if dim.th < 0 then [mkDenEntry "K" dim.th] else []) ++
    (if dim.n < 0 then [mkDenEntry "mol" dim.n] else []) ++
    (if dim.j < 0 then [mkDenEntry "cd" dim.j] else []) ++
    (if dim.l < 0 then [mkDenEntry "m" dim.l] else []) ++
    (if dim.m < 0 then [mkDenEntry "kg" dim.m] else [])
  match numerator, denominator with
  | [], [] => .NumberNode (gf 1)
  | [], d :: ds => .BinaryNode .Divide (.NumberNode (gf 1)) (chainMul d ds)
  | nu :: nus, [] => chainMul nu nus
  | nu :: nus, d :: ds => .BinaryNode .Divide (chainMul nu nus) (chainMul d ds)

/-- `formatUnitDimension` (formatter file): known-symbol collapse,
three special-cased composite dimensions, then the synthesized AST.
Its Go error return is always nil (`dimensionToAST` cannot fail and
`Format` cannot fail on its nodes). -/
def formatUnitDimension (u : Unit) : String :=
  let fmtr := NewDefaultFormatter
  match (if fmtr.Options.CollapseSymbols then
           List.lookup u.Dimension fmtr.Options.KnownSymbols
         else none) with
  | some symbol => symbol
  | none =>
    if (Watt.Div (Meter.Mul Kelvin)).Dimension = u.Dimension then "W/(m*K)"
    else if (Joule.Div (Kilogram.Mul Kelvin)).Dimension = u.Dimension then "J/(kg*K)"
    else if u.Dimension = (Joule.Div (Meter.Pow 3)).Dimension then "Pa"
    else fmtr.Format (dimensionToAST u.Dimension)

/-- `FormatUnit` (formatter file).  Value comparisons on floats
(`u.Value != 1.0`) are value equalities, not representation
equalities. -/
def FormatUnit (u : Unit) : String :=
  if u.Dimension = Dimensionless then goFormatG u.Value
  else
    let fmtStr := formatUnitDimension u
    if ¬ u.Value.eqv GoFloat.one then
      if u.Dimension = Pascal.Dimension then goFormatG u.Value ++ " Pa"
      else goFormatG u.Value ++ " " ++ fmtStr
    else fmtStr

/-- `FormatAST` (formatter file): format a node with the given options
(or the defaults). -/
def FormatAST (node : Node) (opts : Option FormatOptions) : String :=
  (DefaultFormatter.mk (opts.getD DefaultFormatOptions)).Format node

/-- `FormatUnitWithOptions` (formatter file): like `FormatUnit` but
with caller options; the fallback paths for formatter errors are
unreachable (see `formatUnitDimension`). -/
def FormatUnitWithOptions (u : Unit) (opts : Option FormatOptions) : String :=
  let o := opts.getD DefaultFormatOptions
  if u.Dimension = Dimensionless then goFormatG u.Value
  else
    let fmtr : DefaultFormatter := ⟨o⟩
    match (if fmtr.Options.CollapseSymbols then
             List.lookup u.Dimension fmtr.Options.KnownSymbols
           else none) with
    | some symbol =>
      if ¬ u.Value.eqv GoFloat.one then goFormatG u.Value ++ " " ++ symbol else symbol
    | none =>
      let unitStr := fmtr.Format (dimensionToAST u.Dimension)
      if ¬ u.Value.eqv GoFloat.one then goFormatG u.Value ++ " " ++ unitStr else unitStr

/-- Non-increasing byte length along a list of prefix strings (the
sort discipline of `sortPrefixes`). -/
def isSortedByteLenDesc : List String → Bool
  | [] => true
  | [_] => true
  | a :: b :: rest => decide (byteLen b ≤ byteLen a) && isSortedByteLenDesc (b :: rest)

/-- The prefix-scan loop never applies the empty prefix: a trailing
empty-string entry is skipped by the `continue` branch. -/
theorem prefixScan_append_empty (l : List String) (s : String) :
    prefixScan (l ++ [""]) s = prefixScan l s := by
  induction l with
  | nil => rfl
  | cons p l ih =>
    by_cases hp : p = ""
    · simp only [List.cons_append, prefixScan, if_pos hp]
      exact ih
    · simp only [List.cons_append, prefixScan, if_neg hp]
      by_cases hpre : goHasPrefix s p = true
      · rw [if_pos hpre, if_pos hpre]
        cases List.lookup (dropPfx s p) baseUnits with
        | some u => rfl
        | none =>
          cases List.lookup (dropPfx s p) derivedUnits with
          | some u => rfl
          | none => exact ih
      · rw [if_neg hpre, if_neg hpre]
        exact ih

/-- C2: formatting the force dimension `{1,1,-2,0,0,0,0}` with symbol
collapsing disabled yields `"(kg*m)/s^2"` and the energy dimension
`{2,1,-2,0,0,0,0}` yields `"(kg*m^2)/s^2"`; the synthesized force AST
puts mass before length in the numerator product and that binary
numerator, as the left operand of the division, is parenthesized. -/
theorem format_force_energy_no_collapse :
    dimensionToAST ⟨1, 1, -2, 0, 0, 0, 0⟩ =
      Node.BinaryNode .Divide
        (.BinaryNode .Multiply (.IdentNode "kg") (.IdentNode "m"))
        (.PowerNode (.IdentNode "s") 2)
  ∧ FormatUnitWithOptions ⟨gf 1, ⟨1, 1, -2, 0, 0, 0, 0⟩⟩
      (some { DefaultFormatOptions with CollapseSymbols := false }) = "(kg*m)/s^2"
  ∧ FormatUnitWithOptions ⟨gf 1, ⟨2, 1, -2, 0, 0, 0, 0⟩⟩
      (some { DefaultFormatOptions with CollapseSymbols := false }) = "(kg*m^2)/s^2" :=
  ⟨rfl, rfl, rfl⟩

/-- C3: exact base/derived matches come before prefix stripping and the
prefix scan runs longest-first, never applying the empty prefix:
`Resolve "dam"` is the decaprefixed meter (scale 10), `Resolve "m"` is
the base meter (scale 1, not milli of an empty suffix); the scan list
is sorted by byte length in non-increasing order, and a scan without
the empty-prefix entry computes the same result for every symbol. -/
theorem resolve_longest_prefix_discipline :
    Resolve "dam" = .ok ⟨gf 10, Length⟩
  ∧ Resolve "m" = .ok ⟨gf 1, Length⟩
  ∧ isSortedByteLenDesc sortedPrefixes = true
  ∧ (∀ symbol : String,
      prefixScan sortedPrefixes symbol =
        prefixScan (sortedPrefixes.filter (fun p => p ≠ "")) symbol)
  ∧ List.lookup "" prefixes = some (gf 1) := by
  refine ⟨rfl, rfl, by decide, ?_, rfl⟩
  intro symbol
  have h : sortedPrefixes = sortedPrefixes.filter (fun p => p ≠ "") ++ [""] := by decide
  rw [h]
  exact prefixScan_append_empty _ symbol

/-- C4: parsing `"kg*m/s^2"` yields scalar 1 and the dimension
registered for the Newton, and formatting that dimension with symbol
collapsing enabled (the defaults) returns the canonical symbol `"N"`. -/
theorem newton_parse_format_round_trip :
    ParseUnit "kg*m/s^2" = .ok ⟨gf 1, ⟨1, 1, -2, 0, 0, 0, 0⟩⟩
  ∧ List.lookup "N" derivedUnits = some ⟨gf 1, ⟨1, 1, -2, 0, 0, 0, 0⟩⟩
  ∧ Newton.Dimension = ⟨1, 1, -2, 0, 0, 0, 0⟩
  ∧ FormatUnit ⟨gf 1, Newton.Dimension⟩ = "N" :=
  ⟨rfl, rfl, rfl, rfl⟩

/-- C5 counterexample: `Resolve "Kim"` does not return a resolution
error — the binary prefix `Ki` acts as a multiplicative factor on the
meter, yielding 1024 m. -/
theorem binary_prefix_only_bytes_counterexample :
    Resolve "Kim" = .ok ⟨gf 1024, Length⟩
  ∧ ∀ e : SIError, ¬ Resolve "Kim" = .error e :=
  ⟨rfl, fun _ h => Except.noConfusion ((rfl : Resolve "Kim" = .ok ⟨gf 1024, Length⟩).symm.trans h)⟩

/-- C5 amended: the dedicated binary-prefix branch fires only for the
byte suffix (`p+"iB"` resolves to a dimensionless scale), but each
binary prefix is also registered in the general prefix table, so a
binary prefix followed by a registered unit resolves with the binary
factor applied (e.g. `Resolve "Kim"` = 1024 m); a suffix that is not a
registered unit yields a `ResolutionError`. -/
theorem binary_prefix_only_bytes_amended :
    (Resolve "KiB" = .ok ⟨gf (2 ^ 10), dimZero⟩
      ∧ Resolve "Kim" = .ok ⟨gf (2 ^ 10), Length⟩
      ∧ Resolve "Kix" = .error (.unrecognizedUnit "Kix"))
  ∧ (Resolve "MiB" = .ok ⟨gf (2 ^ 20), dimZero⟩
      ∧ Resolve "Mim" = .ok ⟨gf (2 ^ 20), Length⟩
      ∧ Resolve "Mix" = .error (.unrecognizedUnit "Mix"))
  ∧ (Resolve "GiB" = .ok ⟨gf (2 ^ 30), dimZero⟩
      ∧ Resolve "Gim" = .ok ⟨gf (2 ^ 30), Length⟩
      ∧ Resolve "Gix" = .error (.unrecognizedUnit "Gix"))
  ∧ (Resolve "TiB" = .ok ⟨gf (2 ^ 40), dimZero⟩
      ∧ Resolve "Tim" = .ok ⟨gf (2 ^ 40), Length⟩
      ∧ Resolve "Tix" = .error (.unrecognizedUnit "Tix"))
  ∧ (Resolve "PiB" = .ok ⟨gf (2 ^ 50), dimZero⟩
      ∧ Resolve "Pim" = .ok ⟨gf (2 ^ 50), Length⟩
      ∧ Resolve "Pix" = .error (.unrecognizedUnit "Pix"))
  ∧ (Resolve "EiB" = .ok ⟨gf (2 ^ 60), dimZero⟩
      ∧ Resolve "Eim" = .ok ⟨gf (2 ^ 60), Length⟩
      ∧ Resolve "Eix" = .error (.unrecognizedUnit "Eix")) :=
  ⟨⟨rfl, rfl, rfl⟩, ⟨rfl, rfl, rfl⟩, ⟨rfl, rfl, rfl⟩,
   ⟨rfl, rfl, rfl⟩, ⟨rfl, rfl, rfl⟩, ⟨rfl, rfl, rfl⟩⟩

/-- C6: each malformed literal is rejected with the parse error of its
first offending token (missing denominator, unclosed parenthesis,
non-integer exponent, chained exponent), and the unknown unit
`"xyzzy"` is rejected with a resolution error naming it; the error is
in every case the first one encountered, with no recovery. -/
theorem parse_error_scenarios :
    ParseUnit "m/" = .error (.unexpectedToken ⟨.EOF, "", 3⟩)
  ∧ ParseUnit "(kg" = .error (.missingCloseParen ⟨.EOF, "", 4⟩)
  ∧ ParseUnit "kg^x" = .error (.nonIntegerExponent ⟨.Identifier, "x", 5⟩)
  ∧ ParseUnit "m^2^3" = .error (.trailingTokens ⟨.Power, "^", 6⟩)
  ∧ ParseUnit "xyzzy" = .error (.unrecognizedUnit "xyzzy") :=
  ⟨rfl, rfl, rfl, rfl, rfl⟩

/-- C10: `Resolve` special-cases `""`, `"1"` (dimensionless scale 1)
and `"g"` (scale 0.001, mass) before any table lookup — none of the
three is covered by the base-unit or derived-unit tables — and
`ParseUnit` maps `""` and `"1"` to the dimensionless unit `One`. -/
theorem resolve_special_cases :
    Resolve "" = .ok ⟨gf 1, dimZero⟩
  ∧ Resolve "1" = .ok ⟨gf 1, dimZero⟩
  ∧ Resolve "g" = .ok ⟨⟨1, 1000⟩, Mass⟩
  ∧ List.lookup "" baseUnits = none ∧ List.lookup "" derivedUnits = none
  ∧ List.lookup "1" baseUnits = none ∧ List.lookup "1" derivedUnits = none
  ∧ List.lookup "g" baseUnits = none ∧ List.lookup "g" derivedUnits = none
  ∧ ParseUnit "" = .ok One ∧ ParseUnit "1" = .ok One :=
  ⟨rfl, rfl, rfl, rfl, rfl, rfl, rfl, rfl, rfl, rfl, rfl⟩

/-- C1: whenever subexpressions A and B evaluate to dimensions d1 and
d2 (scalars s1, s2), a binary multiply node evaluates to the
element-wise sum d1+d2 with the product of the scalars, a binary
divide node to the element-wise difference d1-d2 with the quotient,
`Power(A, n)` to the dimension scaled element-wise by n, and a group
node to exactly its inner expression's result. -/
theorem eval_dimension_algebra (ctx : String → Except SIError Unit) (A B : Node)
    (s1 s2 : GoFloat) (d1 d2 : Dimension)
    (hA : A.Eval ctx = .ok ⟨s1, d1⟩) (hB : B.Eval ctx = .ok ⟨s2, d2⟩) :
    (Node.BinaryNode .Multiply A B).Eval ctx =
      .ok ⟨s1.mul s2,
        ⟨d1.l + d2.l, d1.m + d2.m, d1.t + d2.t, d1.i + d2.i,
         d1.th + d2.th, d1.n + d2.n, d1.j + d2.j⟩⟩
  ∧ (Node.BinaryNode .Divide A B).Eval ctx =
      .ok ⟨s1.div s2,
        ⟨d1.l - d2.l, d1.m - d2.m, d1.t - d2.t, d1.i - d2.i,
         d1.th - d2.th, d1.n - d2.n, d1.j - d2.j⟩⟩
  ∧ (∀ exp : Int, (Node.PowerNode A exp).Eval ctx =
      .ok ⟨pow s1 exp,
        ⟨d1.l * exp, d1.m * exp, d1.t * exp, d1.i * exp,
         d1.th * exp, d1.n * exp, d1.j * exp⟩⟩)
  ∧ (Node.GroupNode A).Eval ctx = A.Eval ctx := by
  refine ⟨?_, ?_, fun exp => ?_, rfl⟩ <;>
    simp only [Node.Eval, hA, hB, Unit.Mul, Unit.Div, Unit.Pow]

/-- Witness for C1 at the concrete subexpressions `kg` and `s` under
the standard context. -/
theorem eval_dimension_algebra_witness :
    (Node.IdentNode "kg").Eval Resolve = .ok ⟨gf 1, Mass⟩
  ∧ (Node.BinaryNode .Multiply (.IdentNode "kg") (.IdentNode "s")).Eval Resolve =
      .ok ⟨gf 1, ⟨0, 1, 1, 0, 0, 0, 0⟩⟩
  ∧ (Node.BinaryNode .Divide (.IdentNode "kg") (.IdentNode "s")).Eval Resolve =
      .ok ⟨gf 1, ⟨0, 1, -1, 0, 0, 0, 0⟩⟩
  ∧ (Node.PowerNode (.IdentNode "kg") 3).Eval Resolve =
      .ok ⟨gf 1, ⟨0, 3, 0, 0, 0, 0, 0⟩⟩
  ∧ (Node.GroupNode (.IdentNode "kg")).Eval Resolve = (Node.IdentNode "kg").Eval Resolve := by
  have h := eval_dimension_algebra Resolve (.IdentNode "kg") (.IdentNode "s")
    (gf 1) (gf 1) Mass TimeDim rfl rfl
  exact ⟨rfl, h.1.trans (by rfl), h.2.1.trans (by rfl), (h.2.2.1 3).trans (by rfl), h.2.2.2⟩

/-- C7: `Parse` splits the input into white-space fields; a single
field must itself parse as a number v and yields the dimensionless
scalar v, anything else being an error; with two or more fields the
first must parse as a number v and the result is the unit expression
(the remaining fields, concatenated) evaluated with its scalar
multiplied by v. -/
theorem parse_quantity_field_split (input : String) :
    (∀ f, goFields input = [f] →
      Parse input = (match parseFloat? f with
        | some v => .ok (Scalar v)
        | none => .error (.invalidNumericValue f)))
  ∧ (∀ f g fs, goFields input = f :: g :: fs →
      Parse input = (match parseFloat? f with
        | none => .error (.invalidNumericValue f)
        | some v =>
          match parseUnitExprWithAST (String.join (g :: fs)) with
          | .error e => .error e
          | .ok u => .ok { u with Value := u.Value.mul v })) := by
  constructor
  · intro f h
    unfold Parse
    rw [h]
    cases hp : parseFloat? f <;> simp [hp]
  · intro f g fs h
    unfold Parse
    rw [h]

/-- Witness for C7 at the single-field input `"3.5"` and the two-field
input `"9.8 m"`. -/
theorem parse_quantity_field_split_witness :
    goFields "3.5" = ["3.5"] ∧ Parse "3.5" = .ok (Scalar ⟨35, 10⟩)
  ∧ goFields "9.8 m" = ["9.8", "m"] ∧ Parse "9.8 m" = .ok ⟨⟨98, 10⟩, Length⟩ := by
  refine ⟨rfl, ?_, rfl, ?_⟩
  · exact ((parse_quantity_field_split "3.5").1 "3.5" rfl).trans (by rfl)
  · exact ((parse_quantity_field_split "9.8 m").2 "9.8" "m" [] rfl).trans (by rfl)

/-- Fuel irrelevance for `powFuel`: the recursion argument strictly
decreases at every step, so any fuel of at least its size computes the
same value. -/
theorem powFuel_irrel (x : GoFloat) :
    ∀ (n f₁ f₂ : Nat), n ≤ f₁ → n ≤ f₂ → powFuel x f₁ n = powFuel x f₂ n := by
  intro n
  induction n using Nat.strong_induction_on with
  | _ n ih =>
    intro f₁ f₂ h₁ h₂
    cases n with
    | zero => cases f₁ <;> cases f₂ <;> rfl
    | succ k =>
      cases f₁ with
      | zero => omega
      | succ g₁ =>
        cases f₂ with
        | zero => omega
        | succ g₂ =>
          simp only [powFuel]
          by_cases hpar : (k + 1) % 2 = 0
          · rw [if_pos hpar,
              ih ((k + 1) / 2) (by omega) g₁ ((k + 1) / 2) (by omega) (Nat.le_refl _),
              ih ((k + 1) / 2) (by omega) g₂ ((k + 1) / 2) (by omega) (Nat.le_refl _),
              if_pos hpar]
          · rw [if_neg hpar,
              ih k (by omega) g₁ k (by omega) (Nat.le_refl _),
              ih k (by omega) g₂ k (by omega) (Nat.le_refl _),
              if_neg hpar]

/-- `pow` at a natural exponent is the repeated-squaring helper with
fuel equal to the exponent. -/
theorem pow_natCast (x : GoFloat) (m : Nat) : pow x (m : Int) = powFuel x m m := by
  unfold pow
  cases m with
  | zero => rfl
  | succ k =>
    rw [if_neg (by omega), if_neg (by omega)]
    norm_num

/-- C8: `pow` computes integer powers by exact repeated squaring —
`pow(x,0) = 1`, `pow(x,n) = pow(x,n/2)²` for even positive n,
`pow(x,n) = x·pow(x,n-1)` for odd positive n, `pow(x,-n) = 1/pow(x,n)`
for nonnegative n — and a power node applies it to the base's scalar
while the dimension vector is scaled element-wise by the exponent. -/
theorem power_node_repeated_squaring (x : GoFloat) (n : Int)
    (ctx : String → Except SIError Unit) (A : Node) (s : GoFloat) (d : Dimension)
    (hA : A.Eval ctx = .ok ⟨s, d⟩) :
    pow x 0 = GoFloat.one
  ∧ (0 < n → n % 2 = 0 → pow x n = (pow x (n / 2)).mul (pow x (n / 2)))
  ∧ (0 < n → n % 2 = 1 → pow x n = x.mul (pow x (n - 1)))
  ∧ (0 ≤ n → pow x (-n) = GoFloat.one.div (pow x n))
  ∧ (Node.PowerNode A n).Eval ctx =
      .ok ⟨pow s n,
        ⟨d.l * n, d.m * n, d.t * n, d.i * n, d.th * n, d.n * n, d.j * n⟩⟩ := by
  refine ⟨rfl, ?_, ?_, ?_, ?_⟩
  · intro hn hpar
    obtain ⟨m, rfl⟩ : ∃ m : Nat, n = (m : Int) := ⟨n.toNat, (Int.toNat_of_nonneg hn.le).symm⟩
    obtain ⟨k, rfl⟩ : ∃ k, m = k + 1 := ⟨m - 1, by omega⟩
    have hdiv : ((k + 1 : Nat) : Int) / 2 = (((k + 1) / 2 : Nat) : Int) := by omega
    have hk2 : (k + 1) % 2 = 0 := by omega
    rw [hdiv, pow_natCast, pow_natCast]
    simp only [powFuel, if_pos hk2]
    rw [powFuel_irrel x ((k + 1) / 2) k ((k + 1) / 2) (by omega) (Nat.le_refl _)]
  · intro hn hpar
    obtain ⟨m, rfl⟩ : ∃ m : Nat, n = (m : Int) := ⟨n.toNat, (Int.toNat_of_nonneg hn.le).symm⟩
    obtain ⟨k, rfl⟩ : ∃ k, m = k + 1 := ⟨m - 1, by omega⟩
    have hsub : ((k + 1 : Nat) : Int) - 1 = ((k : Nat) : Int) := by omega
    have hk2 : ¬ (k + 1) % 2 = 0 := by omega
    rw [hsub, pow_natCast, pow_natCast]
    simp only [powFuel, if_neg hk2]
  · intro hn
    obtain ⟨m, rfl⟩ : ∃ m : Nat, n = (m : Int) := ⟨n.toNat, (Int.toNat_of_nonneg hn).symm⟩
    cases m with
    | zero => rfl
    | succ k =>
      have h1 : pow x (-((k + 1 : Nat) : Int)) =
          GoFloat.one.div (powFuel x (k + 1) (k + 1)) := by
        unfold pow
        rw [if_neg (by omega), if_pos (by omega)]
        norm_num
      rw [h1, pow_natCast]
  · simp only [Node.Eval, hA, Unit.Pow]

/-- Witness for C8 at base 3 with exponents 4 (even), 5 (odd) and -4,
and a power node over the meter. -/
theorem power_node_repeated_squaring_witness :
    pow ⟨3, 1⟩ 4 = (pow ⟨3, 1⟩ 2).mul (pow ⟨3, 1⟩ 2)
  ∧ pow ⟨3, 1⟩ 5 = GoFloat.mul ⟨3, 1⟩ (pow ⟨3, 1⟩ 4)
  ∧ pow ⟨3, 1⟩ (-4) = GoFloat.one.div (pow ⟨3, 1⟩ 4)
  ∧ (Node.PowerNode (.IdentNode "m") 4).Eval Resolve = .ok ⟨gf 1, ⟨4, 0, 0, 0, 0, 0, 0⟩⟩
  ∧ pow ⟨3, 1⟩ 4 = ⟨81, 1⟩ := by
  have h4 := power_node_repeated_squaring ⟨3, 1⟩ 4 Resolve (.IdentNode "m") (gf 1) Length rfl
  have h5 := power_node_repeated_squaring ⟨3, 1⟩ 5 Resolve (.IdentNode "m") (gf 1) Length rfl
  exact ⟨h4.2.1 (by decide) (by decide), h5.2.2.1 (by decide) (by decide),
    h4.2.2.2.1 (by decide), h4.2.2.2.2.trans (by rfl), by rfl⟩

/-- One emission step of the tokenizer loop: if the recursive call
(after a token consuming `d ≥ 1` characters) fails, the emitted token
precedes the error and is not EOF, and the error facts carry over. -/
theorem tokLoop_step_facts (f : Nat) (next : List Char) (pos d : Nat) (e : LexError)
    (tok : Token) (hk : tok.Kind ≠ TokenKind.EOF) (hp : tok.Pos = pos) (hd : 1 ≤ d)
    (hlen : next.length ≤ f)
    (ihf : ∀ (cs : List Char) (pos : Nat) (e : LexError), cs.length ≤ f →
        (tokLoop f cs pos).2 = some e → pos ≤ e.pos ∧ e ≠ .outOfFuel ∧
        ∀ t ∈ (tokLoop f cs pos).1, t.Pos < e.pos ∧ t.Kind ≠ TokenKind.EOF)
    (herr : (tokLoop f next (pos + d)).2 = some e) :
    pos ≤ e.pos ∧ e ≠ .outOfFuel ∧
      ∀ t ∈ tok :: (tokLoop f next (pos + d)).1,
        t.Pos < e.pos ∧ t.Kind ≠ TokenKind.EOF := by
  obtain ⟨hge, hne, hts⟩ := ihf next (pos + d) e hlen herr
  refine ⟨by omega, hne, ?_⟩
  intro t ht
  rcases List.mem_cons.1 ht with rfl | ht
  · exact ⟨by omega, hk⟩
  · exact hts t ht

/-- When the tokenizer loop fails (with sufficient fuel), the error is
a genuine lexical error at or after the current position, and every
token already produced starts before the offending position and is not
an EOF token. -/
theorem tokLoop_error_shape :
    ∀ (f : Nat) (cs : List Char) (pos : Nat) (e : LexError),
      cs.length ≤ f → (tokLoop f cs pos).2 = some e →
      pos ≤ e.pos ∧ e ≠ .outOfFuel ∧
        ∀ t ∈ (tokLoop f cs pos).1, t.Pos < e.pos ∧ t.Kind ≠ TokenKind.EOF := by
  intro f
  induction f with
  | zero =>
    intro cs pos e hlen herr
    cases cs with
    | nil => simp [tokLoop] at herr
    | cons c rest => simp at hlen
  | succ f ih =>
    intro cs pos e hlen herr
    cases cs with
    | nil => simp [tokLoop] at herr
    | cons c rest =>
      have hlen' : rest.length ≤ f := by simp at hlen; omega
      simp only [tokLoop] at herr ⊢
      by_cases h1 : isSpace c = true
      · rw [if_pos h1] at herr ⊢
        obtain ⟨hge, hne, hts⟩ := ih rest (pos + 1) e hlen' herr
        exact ⟨by omega, hne, hts⟩
      · rw [if_neg h1] at herr ⊢
        by_cases h2 : c = '('
        · rw [if_pos h2] at herr ⊢
          exact tokLoop_step_facts f rest pos 1 e ⟨.LParen, "(", pos⟩
            (by simp) rfl (Nat.le_refl 1) hlen' ih herr
        · rw [if_neg h2] at herr ⊢
          by_cases h3 : c = ')'
          · rw [if_pos h3] at herr ⊢
            exact tokLoop_step_facts f rest pos 1 e ⟨.RParen, ")", pos⟩
              (by simp) rfl (Nat.le_refl 1) hlen' ih herr
          · rw [if_neg h3] at herr ⊢
            by_cases h4 : c = '*' ∨ c = '·'
            · rw [if_pos h4] at herr ⊢
              exact tokLoop_step_facts f rest pos 1 e ⟨.Multiply, String.mk [c], pos⟩
                (by simp) rfl (Nat.le_refl 1) hlen' ih herr
            · rw [if_neg h4] at herr ⊢
              by_cases h5 : c = '/'
              · rw [if_pos h5] at herr ⊢
                exact tokLoop_step_facts f rest pos 1 e ⟨.Divide, "/", pos⟩
                  (by simp) rfl (Nat.le_refl 1) hlen' ih herr
              · rw [if_neg h5] at herr ⊢
                by_cases h6 : c = '^'
                · rw [if_pos h6] at herr ⊢
                  exact tokLoop_step_facts f rest pos 1 e ⟨.Power, "^", pos⟩
                    (by simp) rfl (Nat.le_refl 1) hlen' ih herr
                · rw [if_neg h6] at herr ⊢
                  by_cases h7 : goIsDigit c = true
                  · rw [if_pos h7] at herr ⊢
                    have hpc : decide (goIsDigit c = true ∨ c = '.') = true := by
                      simp [h7]
                    have hdlen : 1 ≤ ((c :: rest).takeWhile
                        (fun d => goIsDigit d ∨ d = '.')).length := by
                      simp only [List.takeWhile_cons]
                      rw [if_pos hpc]
                      simp
                    have hlen2 : ((c :: rest).dropWhile
                        (fun d => goIsDigit d ∨ d = '.')).length ≤ f := by
                      simp only [List.dropWhile_cons]
                      rw [if_pos hpc]
                      exact le_trans (List.dropWhile_sublist _).length_le hlen'
                    revert herr
                    cases hpf : parseFloat? (String.mk
                        ((c :: rest).takeWhile (fun d => goIsDigit d ∨ d = '.'))) with
                    | none =>
                      intro herr
                      obtain rfl : LexError.invalidNumber (String.mk
                          ((c :: rest).takeWhile (fun d => goIsDigit d ∨ d = '.'))) pos
                          = e := by simpa using herr
                      exact ⟨Nat.le_refl pos, by simp, by simp⟩
                    | some v =>
                      intro herr
                      exact tokLoop_step_facts f
                        ((c :: rest).dropWhile (fun d => goIsDigit d ∨ d = '.')) pos
                        ((c :: rest).takeWhile (fun d => goIsDigit d ∨ d = '.')).length e
                        ⟨.Number, String.mk
                          ((c :: rest).takeWhile (fun d => goIsDigit d ∨ d = '.')), pos⟩
                        (by simp) rfl hdlen hlen2 ih herr
                  · rw [if_neg h7] at herr ⊢
                    by_cases h8 : goIsLetter c = true ∨ isSpecialIdentifierStart c = true
                    · rw [if_pos h8] at herr ⊢
                      have hic : isIdentifierChar c = true := by
                        unfold isIdentifierChar
                        rcases h8 with h | h
                        · simp [h]
                        · simp [h]
                      have hdlen : 1 ≤ ((c :: rest).takeWhile isIdentifierChar).length := by
                        simp only [List.takeWhile_cons]
                        rw [if_pos hic]
                        simp
                      have hlen2 : ((c :: rest).dropWhile isIdentifierChar).length ≤ f := by
                        simp only [List.dropWhile_cons]
                        rw [if_pos hic]
                        exact le_trans (List.dropWhile_sublist _).length_le hlen'
                      exact tokLoop_step_facts f ((c :: rest).dropWhile isIdentifierChar) pos
                        ((c :: rest).takeWhile isIdentifierChar).length e
                        ⟨.Identifier, String.mk ((c :: rest).takeWhile isIdentifierChar), pos⟩
                        (by simp) rfl hdlen hlen2 ih herr
                    · rw [if_neg h8] at herr ⊢
                      obtain rfl : LexError.invalidCharacter c pos = e := by simpa using herr
                      exact ⟨Nat.le_refl pos, by simp, by simp⟩

/-- C9: constructing a tokenizer never reports a lexical error — on an
input whose tokenization fails (unrecognized character or malformed
number), `NewTokenizer` keeps exactly the tokens produced before the
offending position (all strictly preceding it, none of them EOF), and
once the cursor is past the stored tokens, `Next` and `Peek` return
end-of-input tokens, so the consumer sees a truncated but well-formed
stream. -/
theorem tokenizer_swallows_lex_errors (input : String) (e : LexError)
    (h : (tokenizeFully input).2 = some e) :
    (NewTokenizer input).tokens = (tokenizeFully input).1
  ∧ e ≠ .outOfFuel
  ∧ (∀ t ∈ (tokenizeFully input).1, t.Pos < e.pos ∧ t.Kind ≠ TokenKind.EOF)
  ∧ (∀ tz : Tokenizer, tz.tokens.length ≤ tz.position →
      tz.Next = (eofToken, tz) ∧ tz.Peek = eofToken) := by
  have key := tokLoop_error_shape (normalizeInput input.data).length
    (normalizeInput input.data) 0 e (Nat.le_refl _) h
  refine ⟨rfl, key.2.1, key.2.2, ?_⟩
  intro tz hlen
  constructor
  · unfold Tokenizer.Next
    rw [dif_neg (by omega)]
  · unfold Tokenizer.Peek
    rw [dif_neg (by omega)]

/-- Witness for C9 at the input `"ab$cd"`, whose `$` is a lexical
error at position 2 of the normalized input. -/
theorem tokenizer_swallows_lex_errors_witness :
    (tokenizeFully "ab$cd").2 = some (.invalidCharacter '$' 2)
  ∧ (NewTokenizer "ab$cd").tokens = [⟨.Identifier, "ab", 0⟩]
  ∧ (Tokenizer.mk "ab$cd" [⟨.Identifier, "ab", 0⟩] 1).Peek = eofToken := by
  have key := tokenizer_swallows_lex_errors "ab$cd" (.invalidCharacter '$' 2) rfl
  refine ⟨rfl, key.1.trans (by rfl), (key.2.2.2 _ (by decide)).2⟩

end SI
